import Mathlib

/-!
Verification of `src/scripts/extract-zip-and-count.mjs` (zip extraction and
counting pipeline).  The script is embedded shallowly: filesystem and
external-tool effects are threaded through an abstract state `σ` whose
operations are supplied as a `World` record, pure string manipulation is
translated directly, and the `node:path` POSIX helpers used by the script are
modelled for slash-separated absolute paths (the only paths the script
builds).  String operations are implemented by structural recursion on the
underlying character lists so that every definition evaluates inside the
kernel.
-/

namespace ZipExtract

/-! ## Character-list string primitives -/

/-- Split a character list on a separator character; mirrors
`String.splitOn` for a one-character separator (always returns at least one
part, keeps empty parts). -/
def splitOnCharAux (c : Char) : List Char → List Char → List (List Char)
  | [], acc => [acc.reverse]
  | x :: xs, acc =>
    if x = c then acc.reverse :: splitOnCharAux c xs []
    else splitOnCharAux c xs (x :: acc)

/-- Split on a character, `String.splitOn` style. -/
def splitOnChar (c : Char) (l : List Char) : List (List Char) :=
  splitOnCharAux c l []

/-- Rebuild a `String` from characters. -/
def ofChars (l : List Char) : String := ⟨l⟩

/-- Does `sub` occur as a contiguous sublist?  Mirrors
`String.prototype.includes` for a non-empty pattern. -/
def listContainsSub (sub : List Char) : List Char → Bool
  | [] => sub.isEmpty
  | x :: xs => sub.isPrefixOf (x :: xs) || listContainsSub sub xs

/-- Model of `String.prototype.toLowerCase` for the ASCII range. -/
def lowerStr (s : String) : String := ofChars (s.data.map Char.toLower)

/-- Model of `String.prototype.startsWith`. -/
def startsWithStr (s pre : String) : Bool := pre.data.isPrefixOf s.data

/-- Model of `String.prototype.endsWith`. -/
def endsWithStr (s suf : String) : Bool := suf.data.isSuffixOf s.data

/-- ASCII whitespace (the whitespace the script can meet in an argv word). -/
def isWhitespaceChar (c : Char) : Bool :=
  c = ' ' || c = '\t' || c = '\n' || c = '\r'

/-- Model of `String.prototype.trim` (ASCII whitespace). -/
def trimStr (s : String) : String :=
  ofChars (((s.data.dropWhile isWhitespaceChar).reverse.dropWhile
    isWhitespaceChar).reverse)

/-! ## Models of the `node:path` helpers used by the script

The script only manipulates POSIX-style absolute paths without trailing
slashes; the helpers below agree with `path.basename`, `path.dirname`,
`path.extname` and `path.join` on such paths. -/

/-- Model of `path.basename(p)`: the component after the last `/`. -/
def basename (p : String) : String :=
  ofChars ((splitOnChar '/' p.data).getLastD p.data)

/-- Model of `path.dirname(p)`: everything before the last `/`
(`.` when there is no separator). -/
def dirname (p : String) : String :=
  let parts := splitOnChar '/' p.data
  if parts.length ≤ 1 then "." else ofChars (List.intercalate ['/'] parts.dropLast)

/-- Model of `path.extname(p)`: from the last `.` of the basename to the end,
empty when there is no dot or the only dot is the leading character
(so `extname ".DS_Store" = ""` and `extname "a.zip" = ".zip"`, as in Node). -/
def extname (p : String) : String :=
  let parts := splitOnChar '.' (basename p).data
  if parts.length ≤ 1 then ""
  else if parts.length == 2 && (parts.headD []).isEmpty then ""
  else ofChars ('.' :: (parts.getLastD []))

/-- Model of `path.join(a, b)` for a non-empty relative second component. -/
def pathJoin (a b : String) : String := a ++ "/" ++ b

/-- Model of `String.prototype.includes(sub)`. -/
def includesSub (s sub : String) : Bool :=
  listContainsSub sub.data s.data

/-- Model of `path.basename(p, suffix)`: the basename with `suffix` removed
when it is a proper suffix (Node keeps the name when it equals the suffix). -/
def basenameDropSuffix (p suffix : String) : String :=
  let b := basename p
  if endsWithStr b suffix && b != suffix then
    ofChars (b.data.take (b.data.length - suffix.data.length))
  else b

/-! ## The script's own pure predicates (lines 19–25 and 106–109) -/

/-- `isRealZipPath` (lines 19–25): extension `.zip` case-insensitively, the
basename is not an AppleDouble companion (`._` prefix), and the path is not
inside a `__MACOSX` directory. -/
def isRealZipPath (filePath : String) : Bool :=
  if lowerStr (extname filePath) != ".zip" then false
  else
    let base := basename filePath
    if startsWithStr base "._" then false
    else if includesSub filePath "/__MACOSX/" || includesSub filePath "\\__MACOSX\\" then false
    else true

/-- `isMacMetadataFile` (lines 106–109): basename is exactly `.DS_Store` or
starts with `._`. -/
def isMacMetadataFile (filePath : String) : Bool :=
  let base := basename filePath
  base == ".DS_Store" || startsWithStr base "._"

/-! ## Stable descending sort

The script sorts with `Array.prototype.sort` and a numeric comparator
(`(a, b) => key(b) - key(a)`), i.e. a *stable* sort into descending key
order (ECMAScript mandates sort stability).  A stable sort is determined by
the comparator, so stable insertion sort is a faithful model. -/

/-- Insert `x` before the first element whose key is not larger; since `x`
precedes the list elements in the original order, this is the stable
position. -/
def insertDescBy (key : α → Nat) (x : α) : List α → List α
  | [] => [x]
  | y :: ys => if key y ≤ key x then x :: y :: ys else y :: insertDescBy key x ys

/-- Stable sort into descending `key` order. -/
def sortDescBy (key : α → Nat) : List α → List α
  | [] => []
  | x :: xs => insertDescBy key x (sortDescBy key xs)

theorem perm_insertDescBy (key : α → Nat) (x : α) (l : List α) :
    List.Perm (insertDescBy key x l) (x :: l) := by
  induction l with
  | nil => exact List.Perm.refl _
  | cons y ys ih =>
    by_cases h : key y ≤ key x
    · rw [insertDescBy, if_pos h]
    · rw [insertDescBy, if_neg h]
      exact (ih.cons y).trans (List.Perm.swap x y ys)

theorem perm_sortDescBy (key : α → Nat) (l : List α) :
    List.Perm (sortDescBy key l) l := by
  induction l with
  | nil => exact List.Perm.refl _
  | cons x xs ih =>
    exact (perm_insertDescBy key x (sortDescBy key xs)).trans (ih.cons x)

/-- Descending-order invariant of the sort. -/
def DescBy (key : α → Nat) (l : List α) : Prop :=
  l.Pairwise (fun a b => key b ≤ key a)

theorem descBy_insertDescBy (key : α → Nat) (x : α) (l : List α)
    (h : DescBy key l) : DescBy key (insertDescBy key x l) := by
  induction l with
  | nil => simp [insertDescBy, DescBy]
  | cons y ys ih =>
    rw [DescBy, List.pairwise_cons] at h
    by_cases hxy : key y ≤ key x
    · rw [DescBy, insertDescBy, if_pos hxy, List.pairwise_cons]
      refine ⟨?_, ?_⟩
      · intro b hb
        rcases List.mem_cons.mp hb with rfl | hb
        · exact hxy
        · exact (h.1 b hb).trans hxy
      · rw [List.pairwise_cons]
        exact h
    · rw [DescBy, insertDescBy, if_neg hxy, List.pairwise_cons]
      refine ⟨?_, ih h.2⟩
      intro b hb
      have hmem := (perm_insertDescBy key x ys).mem_iff.mp hb
      rcases List.mem_cons.mp hmem with rfl | hb'
      · exact Nat.le_of_lt (Nat.lt_of_not_le hxy)
      · exact h.1 b hb'

theorem descBy_sortDescBy (key : α → Nat) (l : List α) :
    DescBy key (sortDescBy key l) := by
  induction l with
  | nil => simp [sortDescBy, DescBy]
  | cons x xs ih => exact descBy_insertDescBy key x _ ih

/-- In a descending list the head has the maximal key. -/
theorem descBy_head_max (key : α → Nat) (a : α) (l : List α)
    (h : DescBy key (a :: l)) : ∀ b ∈ a :: l, key b ≤ key a := by
  rw [DescBy, List.pairwise_cons] at h
  intro b hb
  rcases List.mem_cons.mp hb with rfl | hb
  · exact Nat.le_refl _
  · exact h.1 b hb

/-- In a descending list, an element with a strictly larger key occurs
(first) strictly before one with a smaller key. -/
theorem idxOf_lt_of_key_gt [DecidableEq α] (key : α → Nat) :
    ∀ (l : List α), DescBy key l → ∀ x ∈ l, ∀ y ∈ l, key y < key x →
      l.indexOf x < l.indexOf y := by
  intro l
  induction l with
  | nil => intro _ x hx; exact absurd hx (List.not_mem_nil x)
  | cons a t ih =>
    intro hd x hx y hy hkey
    have hxy : x ≠ y := fun h => absurd (h ▸ hkey) (Nat.lt_irrefl _)
    rw [DescBy, List.pairwise_cons] at hd
    by_cases hax : a = x
    · subst hax
      rw [List.indexOf_cons_self]
      rw [List.indexOf_cons_ne t hxy]
      exact Nat.succ_pos _
    · have hxt : x ∈ t := by
        rcases List.mem_cons.mp hx with h | h
        · exact absurd h.symm hax
        · exact h
      by_cases hay : a = y
      · subst hay
        exact absurd (hd.1 x hxt) (Nat.not_le_of_lt hkey)
      · have hyt : y ∈ t := by
          rcases List.mem_cons.mp hy with h | h
          · exact absurd h.symm hay
          · exact h
        rw [List.indexOf_cons_ne t hax, List.indexOf_cons_ne t hay]
        exact Nat.succ_lt_succ (ih hd.2 x hxt y hyt hkey)

/-- Two permutation-equal descending lists whose keys are injective on their
elements are equal. -/
theorem descBy_perm_eq [DecidableEq α] (key : α → Nat) :
    ∀ (l₁ l₂ : List α), List.Perm l₁ l₂ → DescBy key l₁ → DescBy key l₂ →
      (∀ a ∈ l₁, ∀ b ∈ l₁, key a = key b → a = b) → l₁ = l₂ := by
  intro l₁
  induction l₁ with
  | nil =>
    intro l₂ hp _ _ _
    have := hp.length_eq
    cases l₂ with
    | nil => rfl
    | cons b t₂ => simp at this
  | cons a t₁ ih =>
    intro l₂ hp h₁ h₂ hinj
    cases l₂ with
    | nil =>
      have := hp.length_eq
      simp at this
    | cons b t₂ =>
      have hab : a = b := by
        have hbl₁ : b ∈ a :: t₁ := hp.mem_iff.mpr (List.mem_cons_self b t₂)
        have hal₂ : a ∈ b :: t₂ := hp.mem_iff.mp (List.mem_cons_self a t₁)
        have h1 : key a ≤ key b := descBy_head_max key b t₂ h₂ a hal₂
        have h2 : key b ≤ key a := descBy_head_max key a t₁ h₁ b hbl₁
        exact hinj a (List.mem_cons_self a t₁) b hbl₁ (Nat.le_antisymm h1 h2)
      subst hab
      have ht : List.Perm t₁ t₂ := hp.cons_inv
      have := ih t₂ ht
        ((List.pairwise_cons.mp h₁).2) ((List.pairwise_cons.mp h₂).2)
        (fun x hx y hy => hinj x (List.mem_cons_of_mem a hx) y (List.mem_cons_of_mem a hy))
      rw [this]

/-! ## Order-preserving deduplication

Models `Array.from(new Set(xs))` (line 185): JavaScript `Set` iterates in
insertion order, so this keeps the first occurrence of each element. -/

def dedupKeepFirstAux [DecidableEq α] (seen : List α) : List α → List α
  | [] => []
  | x :: xs =>
    if x ∈ seen then dedupKeepFirstAux seen xs
    else x :: dedupKeepFirstAux (x :: seen) xs

/-- First-occurrence deduplication, insertion order preserved. -/
def dedupKeepFirst [DecidableEq α] (l : List α) : List α :=
  dedupKeepFirstAux [] l

/-! ## PathResolver: `resolveZipFromArgs` (lines 148–209)

The filesystem facts the resolver consults (`stat` results and the recursive
upload-directory listing with modification times) are supplied in a
`ResolveWorld`.  Thrown `Error`s are modelled as a structured error type whose
constructors carry exactly the data interpolated into the message. -/

/-- A file known to the resolver: absolute path plus `stat(...).mtimeMs`. -/
structure FileEntry where
  path : String
  mtimeMs : Nat
deriving DecidableEq

/-- The three `throw new Error(...)` shapes of the resolver. -/
inductive ResErr
  /-- "zip file not found: `arg`. Available zip files in upload: `available`"
  (lines 186–188). -/
  | notFound (arg : String) (available : List String)
  /-- "upload folder not found: `dir`" (line 194). -/
  | uploadMissing (dir : String)
  /-- "no .zip files found in upload folder: `dir`" (line 199). -/
  | noZips (dir : String)
deriving DecidableEq

/-- The ambient filesystem facts the resolver reads. -/
structure ResolveWorld where
  /-- `process.cwd()` used by `path.resolve`. -/
  cwd : String
  /-- `UPLOAD_DIR` (line 7). -/
  uploadDir : String
  /-- `stat(p)` resolves to a regular file (the `.catch(() => null)` /
  `?.isFile()` combination yields `false` on any failure). -/
  statIsFile : String → Bool
  /-- `stat(UPLOAD_DIR)` resolves to a directory. -/
  uploadDirIsDir : Bool
  /-- `listFilesRecursive(UPLOAD_DIR)` result, with each file's `mtimeMs`. -/
  uploadFiles : List FileEntry
  /-- whether `listFilesRecursive(UPLOAD_DIR)` rejects (then line 162's
  `.catch(() => [])` substitutes the empty list). -/
  uploadListFails : Bool

/-- Model of `path.resolve(base, p)`: an absolute `p` stands alone, a
relative one is joined to the base. -/
def resolvePath (base p : String) : String :=
  if startsWithStr p "/" then p else pathJoin base p

/-- The qualifying zips of a listing (line 163). -/
def uploadZipsOf (listing : List FileEntry) : List FileEntry :=
  listing.filter (fun f => isRealZipPath f.path)

/-- The case-insensitive basename matches of `cleanArg` (lines 164–169):
qualifying zips whose lowercased basename equals the lowercased argument,
literally or with `.zip` appended. -/
def basenameMatches (cleanArg : String) (listing : List FileEntry) :
    List FileEntry :=
  let normalizedArg := lowerStr cleanArg
  let normalizedArgZip :=
    if endsWithStr normalizedArg ".zip" then normalizedArg
    else normalizedArg ++ ".zip"
  (uploadZipsOf listing).filter (fun f =>
    let base := lowerStr (basename f.path)
    base == normalizedArg || base == normalizedArgZip)

/-- The case-insensitive basename-match fallback (lines 161–188); returns the
resolution result together with whether the multiple-match tie-break was
logged (line 179). -/
def resolveByBasenameMatch (cleanArg : String) (listing : List FileEntry) :
    Except ResErr String × Bool :=
  match basenameMatches cleanArg listing with
  | [m] => (Except.ok m.path, false)
  | [] =>
    let available :=
      (dedupKeepFirst ((uploadZipsOf listing).map (fun f => basename f.path))).take 12
    (Except.error (ResErr.notFound cleanArg available), false)
  | m :: rest =>
    let sorted := sortDescBy (fun f => f.mtimeMs) (m :: rest)
    (Except.ok ((sorted.headD m).path), true)

/-- The no-argument branch (lines 191–208): require the upload directory,
filter to real zips, pick the most recently modified. -/
def noArgResolve (w : ResolveWorld) : Except ResErr String :=
  if !w.uploadDirIsDir then Except.error (ResErr.uploadMissing w.uploadDir)
  else
    let zips := w.uploadFiles.filter (fun f => isRealZipPath f.path)
    match zips with
    | [] => Except.error (ResErr.noZips w.uploadDir)
    | z :: rest =>
      let sorted := sortDescBy (fun f => f.mtimeMs) (z :: rest)
      Except.ok ((sorted.headD z).path)

/-- `resolveZipFromArgs` (lines 148–209).  `zipArg = none` models an absent
`process.argv` entry; `zipArg?.trim()` is falsy exactly when the argument is
absent or trims to the empty string. -/
def resolveZipFromArgs (w : ResolveWorld) (zipArg : Option String) :
    Except ResErr String :=
  let cleanArg := trimStr (zipArg.getD "")
  if cleanArg != "" then
    let directPath := resolvePath w.cwd cleanArg
    if w.statIsFile directPath then Except.ok directPath
    else
      let uploadPath := resolvePath w.uploadDir cleanArg
      if w.statIsFile uploadPath then Except.ok uploadPath
      else
        let listing := if w.uploadListFails then [] else w.uploadFiles
        (resolveByBasenameMatch cleanArg listing).1
  else noArgResolve w

/-! ## The effectful world

Every filesystem and external-tool call of the script is an operation on an
abstract state `σ`.  A fallible operation returns `(some err, s')` when the
underlying promise rejects with message `err` (possibly after partial
effects) and `(none, s')` on success.  Directory listings are read-only and
modelled as pure views of the state. -/

structure World (σ : Type) where
  /-- `resolveZipFromArgs` as invoked by `main` (line 245). -/
  resolve : σ → Except ResErr String × σ
  /-- `rm(p, { recursive: true, force: true })` (lines 69 and 127). -/
  rmRecForce : σ → String → Option String × σ
  /-- `rm(p, { force: true })` (line 118); `force` only suppresses
  missing-path errors, other failures still reject. -/
  rmForce : σ → String → Option String × σ
  /-- `mkdir(p, { recursive: true })` (lines 70 and 74). -/
  mkdirRec : σ → String → Option String × σ
  /-- `chmod(p, 0o755)` (line 139). -/
  chmod755 : σ → String → Option String × σ
  /-- `execFileAsync('unzip', ['-o', zip, '-d', out], ...)` (lines 87–89). -/
  unzipTool : σ → String → String → Option String × σ
  /-- `execFileAsync('ditto', ['-x', '-k', zip, out])` (line 96). -/
  dittoTool : σ → String → String → Option String × σ
  /-- `listFilesRecursive(dir)` (lines 27–43): every file under `dir`,
  each exactly once. -/
  listFilesRec : σ → String → List String
  /-- `listDirsRecursive(dir)` (lines 45–59). -/
  listDirsRec : σ → String → List String
  /-- `Date.now()` (line 64). -/
  now : Nat

/-- `buildFallbackDirPath` (lines 61–65). -/
def buildFallbackDirPath (preferredDir : String) (now : Nat) : String :=
  pathJoin (dirname preferredDir) (basename preferredDir ++ "_" ++ toString now)

/-- The `try` block of `prepareEmptyDir` (lines 68–71): clear then recreate
the preferred directory; on failure return the caught message and the state
at the catch. -/
def tryPreparePreferred (w : World σ) (s : σ) (preferredDir : String) :
    Except (String × σ) σ :=
  match w.rmRecForce s preferredDir with
  | (some err, s₁) => Except.error (err, s₁)
  | (none, s₁) =>
    match w.mkdirRec s₁ preferredDir with
    | (some err, s₂) => Except.error (err, s₂)
    | (none, s₂) => Except.ok s₂

/-- `prepareEmptyDir` (lines 67–81).  Returns the directory to use (or the
propagated error when even the fallback `mkdir` rejects), the state, and the
`console.log` lines emitted. -/
def prepareEmptyDir (w : World σ) (s : σ) (preferredDir : String) :
    Except String String × σ × List String :=
  match tryPreparePreferred w s preferredDir with
  | Except.ok s₂ => (Except.ok preferredDir, s₂, [])
  | Except.error (err, s₁) =>
    let fallbackDir := buildFallbackDirPath preferredDir w.now
    match w.mkdirRec s₁ fallbackDir with
    | (none, s₂) =>
      (Except.ok fallbackDir, s₂,
        ["[zip:extract] cannot reuse output dir (" ++ preferredDir ++
          "); using fallback: " ++ fallbackDir,
         "[zip:extract] reason: " ++ err])
    | (some err₂, s₂) => (Except.error err₂, s₂, [])

/-- The tool phase of `unzipToDir` (lines 85–103): primary `unzip`, fallback
`ditto`, combined error when both fail. -/
def runTools (w : World σ) (s : σ) (zipPath outputDir : String) :
    Except String String × σ :=
  match w.unzipTool s zipPath outputDir with
  | (none, s₁) => (Except.ok outputDir, s₁)
  | (some unzipMsg, s₁) =>
    match w.dittoTool s₁ zipPath outputDir with
    | (none, s₂) => (Except.ok outputDir, s₂)
    | (some dittoMsg, s₂) =>
      (Except.error ("Both unzip and ditto failed.\n- unzip: " ++ unzipMsg ++
        "\n- ditto: " ++ dittoMsg), s₂)

/-- `unzipToDir` (lines 83–104): prepare a directory, then run the tool
chain into it. -/
def unzipToDir (w : World σ) (s : σ) (zipPath preferredOutputDir : String) :
    Except String String × σ :=
  match prepareEmptyDir w s preferredOutputDir with
  | (Except.ok outputDir, s₁, _) => runTools w s₁ zipPath outputDir
  | (Except.error e, s₁, _) => (Except.error e, s₁)

/-- `makeDirectoriesWritable` (lines 134–146): chmod the root and every
directory below it, counting successes and swallowing failures. -/
def makeDirectoriesWritable (w : World σ) (s : σ) (rootDir : String) :
    Nat × σ :=
  let dirs := rootDir :: w.listDirsRec s rootDir
  dirs.foldl
    (fun acc d =>
      match w.chmod755 acc.2 d with
      | (none, s') => (acc.1 + 1, s')
      | (some _, s') => (acc.1, s'))
    (0, s)

/-! ## ArtifactCleaner: `cleanupMacArtifacts` (lines 111–132) -/

/-- The file-removal pass (lines 115–120).  There is no `try`/`catch` here:
a rejected `rm` propagates, aborting the whole cleanup. -/
def removeMacFiles (w : World σ) : List String → σ → Nat →
    Except String Nat × σ
  | [], s, acc => (Except.ok acc, s)
  | f :: fs, s, acc =>
    if isMacMetadataFile f then
      match w.rmForce s f with
      | (some e, s') => (Except.error e, s')
      | (none, s') => removeMacFiles w fs s' (acc + 1)
    else removeMacFiles w fs s acc

/-- The directory-removal pass (lines 125–129), run over the already sorted
directory list. -/
def removeMacDirs (w : World σ) : List String → σ → Nat →
    Except String Nat × σ
  | [], s, acc => (Except.ok acc, s)
  | d :: ds, s, acc =>
    if basename d == "__MACOSX" then
      match w.rmRecForce s d with
      | (some e, s') => (Except.error e, s')
      | (none, s') => removeMacDirs w ds s' (acc + 1)
    else removeMacDirs w ds s acc

/-- The order in which the directory pass attempts `__MACOSX` deletions
(lines 122–129): the discovered directories stably sorted into descending
path length, restricted to basename `__MACOSX`. -/
def deletionOrder (dirs : List String) : List String :=
  (sortDescBy (fun d => d.data.length) dirs).filter
    (fun d => basename d == "__MACOSX")

/-- `cleanupMacArtifacts` (lines 111–132). -/
def cleanupMacArtifacts (w : World σ) (s : σ) (rootOutputDir : String) :
    Except String (Nat × Nat) × σ :=
  let files := w.listFilesRec s rootOutputDir
  match removeMacFiles w files s 0 with
  | (Except.error e, s₁) => (Except.error e, s₁)
  | (Except.ok removedFiles, s₁) =>
    let dirs := w.listDirsRec s₁ rootOutputDir
    let sorted := sortDescBy (fun d => d.data.length) dirs
    match removeMacDirs w sorted s₁ 0 with
    | (Except.error e, s₂) => (Except.error e, s₂)
    | (Except.ok removedDirs, s₂) => (Except.ok (removedFiles, removedDirs), s₂)

/-! ## NestedExtractionLoop: `extractNestedZips` (lines 211–241)

The loop is stated over an arbitrary per-pass pre-step `pre` (permission
normalization), scanner `scan` (list-and-filter to real zips) and extractor
`extract`, so that the at-most-once and termination arguments are proved
once and instantiated by `main`.  The `trace` field records, in order, every
zip path submitted to the extractor together with the outcome of its
attempt. -/

structure LoopState (σ : Type) where
  fs : σ
  /-- the `processed` set (line 212). -/
  processed : Finset String
  /-- submitted extractions, in submission order, with success flag. -/
  trace : List (String × Bool)
  /-- `nestedZipCount` (line 213). -/
  count : Nat
  /-- `nestedZipFailures` (line 214). -/
  failures : Nat

/-- Initial loop state (lines 212–214). -/
def initState (fs : σ) : LoopState σ :=
  { fs := fs, processed := ∅, trace := [], count := 0, failures := 0 }

/-- The inner `for` over one pass's pending list (lines 223–237): add the
path to `processed`, attempt extraction, bump the matching counter. -/
def runPending (extract : σ → String → Bool × σ) :
    List String → LoopState σ → LoopState σ
  | [], st => st
  | p :: ps, st =>
    let res := extract st.fs p
    runPending extract ps
      { fs := res.2
        processed := insert p st.processed
        trace := st.trace ++ [(p, res.1)]
        count := if res.1 then st.count + 1 else st.count
        failures := if res.1 then st.failures else st.failures + 1 }

/-- The outer `while (true)` (lines 216–238), with explicit fuel; the flag
is `true` when the loop exited through its fixpoint test (`pending` empty)
rather than by exhausting fuel. -/
def extractLoop (pre : σ → σ) (scan : σ → List String)
    (extract : σ → String → Bool × σ) :
    Nat → LoopState σ → LoopState σ × Bool
  | 0, st => (st, false)
  | fuel + 1, st =>
    let st₀ : LoopState σ := { st with fs := pre st.fs }
    let pending := (scan st₀.fs).filter (fun p => !decide (p ∈ st₀.processed))
    if pending.isEmpty then (st₀, true)
    else extractLoop pre scan extract fuel (runPending extract pending st₀)

/-- The per-pass pre-step used by `extractNestedZips` (line 217). -/
def nestedPre (w : World σ) (rootOutputDir : String) (s : σ) : σ :=
  (makeDirectoriesWritable w s rootOutputDir).2

/-- The per-pass scan used by `extractNestedZips` (lines 218–219). -/
def nestedScan (w : World σ) (rootOutputDir : String) (s : σ) : List String :=
  (w.listFilesRec s rootOutputDir).filter (fun f => isRealZipPath f)

/-- One nested extraction attempt (lines 225–236): derive the sibling
`<base>_extracted` directory and call `unzipToDir`. -/
def nestedExtract (w : World σ) (s : σ) (zipPath : String) : Bool × σ :=
  let base := basenameDropSuffix zipPath ".zip"
  let parent := dirname zipPath
  let nestedOutputDir := pathJoin parent (base ++ "_extracted")
  match unzipToDir w s zipPath nestedOutputDir with
  | (Except.ok _, s') => (true, s')
  | (Except.error _, s') => (false, s')

/-- `extractNestedZips` (lines 211–241), given fuel for the outer loop. -/
def extractNestedZips (w : World σ) (s : σ) (rootOutputDir : String)
    (fuel : Nat) : LoopState σ × Bool :=
  extractLoop (nestedPre w rootOutputDir) (nestedScan w rootOutputDir)
    (nestedExtract w) fuel (initState s)

/-! ## Orchestrator: `main` (lines 243–284) -/

/-- The eight summary counters printed at lines 270–278. -/
structure Summary where
  nestedZipCount : Nat
  nestedZipFailures : Nat
  removedFiles : Nat
  removedDirs : Nat
  totalDirs : Nat
  totalFiles : Nat
  nonZipFiles : Nat
  zipFilesStill : Nat
deriving DecidableEq

/-- Observable outcome of a `main` run: the process exit code, whether the
non-`.zip` usage-error branch (lines 246–249) fired, the printed summary
(`none` when the run died before printing it), and the final filesystem
state. -/
structure MainOutcome (σ : Type) where
  exitCode : Nat
  usageError : Bool
  summary : Option Summary
  finalS : σ

/-- `main` (lines 243–279) together with the process-level handler
(lines 281–284): any rejection reaching `main().catch` exits with code 1. -/
def mainModel (w : World σ) (s₀ : σ) (outputArg : Option String)
    (fuel : Nat) : MainOutcome σ :=
  match w.resolve s₀ with
  | (Except.error _, s₁) =>
    { exitCode := 1, usageError := false, summary := none, finalS := s₁ }
  | (Except.ok zipPath, s₁) =>
    if lowerStr (extname zipPath) != ".zip" then
      { exitCode := 1, usageError := true, summary := none, finalS := s₁ }
    else
      let defaultOutput := pathJoin (dirname zipPath)
        (basenameDropSuffix zipPath ".zip" ++ "_extracted")
      let outputDir := outputArg.getD defaultOutput
      match unzipToDir w s₁ zipPath outputDir with
      | (Except.error _, s₂) =>
        { exitCode := 1, usageError := false, summary := none, finalS := s₂ }
      | (Except.ok actualOut, s₂) =>
        let s₃ := (makeDirectoriesWritable w s₂ actualOut).2
        let loopRes := extractNestedZips w s₃ actualOut fuel
        let fin := loopRes.1
        match cleanupMacArtifacts w fin.fs actualOut with
        | (Except.error _, s₅) =>
          { exitCode := 1, usageError := false, summary := none, finalS := s₅ }
        | (Except.ok (removedFiles, removedDirs), s₅) =>
          let allFiles := w.listFilesRec s₅ actualOut
          let allDirs := w.listDirsRec s₅ actualOut
          let zipFiles := allFiles.filter
            (fun f => lowerStr (extname f) == ".zip")
          let nonZipFiles := allFiles.filter
            (fun f => lowerStr (extname f) != ".zip")
          { exitCode := 0, usageError := false,
            summary := some
              { nestedZipCount := fin.count
                nestedZipFailures := fin.failures
                removedFiles := removedFiles
                removedDirs := removedDirs
                totalDirs := allDirs.length
                totalFiles := allFiles.length
                nonZipFiles := nonZipFiles.length
                zipFilesStill := zipFiles.length }
            finalS := s₅ }

/-! ## Lemmas about the nested-extraction loop -/

theorem runPending_trace_fst (extract : σ → String → Bool × σ) :
    ∀ (ps : List String) (st : LoopState σ),
      (runPending extract ps st).trace.map Prod.fst =
        st.trace.map Prod.fst ++ ps := by
  intro ps
  induction ps with
  | nil => intro st; simp [runPending]
  | cons p ps ih =>
    intro st
    rw [runPending, ih]
    simp

theorem runPending_processed (extract : σ → String → Bool × σ) :
    ∀ (ps : List String) (st : LoopState σ),
      (runPending extract ps st).processed = st.processed ∪ ps.toFinset := by
  intro ps
  induction ps with
  | nil => intro st; simp [runPending]
  | cons p ps ih =>
    intro st
    rw [runPending, ih]
    simp [Finset.insert_union, Finset.union_insert]

theorem runPending_counts (extract : σ → String → Bool × σ) :
    ∀ (ps : List String) (st : LoopState σ),
      st.count = (st.trace.filter (fun e => e.2)).length →
      st.failures = (st.trace.filter (fun e => !e.2)).length →
      (runPending extract ps st).count =
          ((runPending extract ps st).trace.filter (fun e => e.2)).length ∧
        (runPending extract ps st).failures =
          ((runPending extract ps st).trace.filter (fun e => !e.2)).length := by
  intro ps
  induction ps with
  | nil => intro st h₁ h₂; exact ⟨h₁, h₂⟩
  | cons p ps ih =>
    intro st h₁ h₂
    rw [runPending]
    apply ih
    · cases hres : (extract st.fs p).1 <;>
        simp [List.filter_append, hres, h₁]
    · cases hres : (extract st.fs p).1 <;>
        simp [List.filter_append, hres, h₂]

theorem extractLoop_counts (pre : σ → σ) (scan : σ → List String)
    (extract : σ → String → Bool × σ) :
    ∀ (fuel : Nat) (st : LoopState σ),
      st.count = (st.trace.filter (fun e => e.2)).length →
      st.failures = (st.trace.filter (fun e => !e.2)).length →
      (extractLoop pre scan extract fuel st).1.count =
          ((extractLoop pre scan extract fuel st).1.trace.filter
            (fun e => e.2)).length ∧
        (extractLoop pre scan extract fuel st).1.failures =
          ((extractLoop pre scan extract fuel st).1.trace.filter
            (fun e => !e.2)).length := by
  intro fuel
  induction fuel with
  | zero => intro st h₁ h₂; exact ⟨h₁, h₂⟩
  | succ fuel ih =>
    intro st h₁ h₂
    rw [extractLoop]
    by_cases hp : ((scan (pre st.fs)).filter
        (fun p => !decide (p ∈ st.processed))).isEmpty
    · simp only [hp, if_pos]
      exact ⟨h₁, h₂⟩
    · simp only [hp, if_neg, Bool.false_eq_true, not_false_iff]
      have h := runPending_counts extract
        ((scan (pre st.fs)).filter (fun p => !decide (p ∈ st.processed)))
        { st with fs := pre st.fs } h₁ h₂
      exact ih _ h.1 h.2

theorem runPending_inv (extract : σ → String → Bool × σ) :
    ∀ (ps : List String) (st : LoopState σ),
      (st.trace.map Prod.fst).Nodup →
      (∀ q ∈ st.trace.map Prod.fst, q ∈ st.processed) →
      ps.Nodup →
      (∀ p ∈ ps, p ∉ st.processed) →
      ((runPending extract ps st).trace.map Prod.fst).Nodup ∧
        (∀ q ∈ (runPending extract ps st).trace.map Prod.fst,
          q ∈ (runPending extract ps st).processed) := by
  intro ps
  induction ps with
  | nil => intro st h₁ h₂ _ _; exact ⟨h₁, h₂⟩
  | cons p ps ih =>
    intro st h₁ h₂ h₃ h₄
    rw [runPending]
    apply ih
    · simp only [List.map_append, List.map_cons, List.map_nil]
      rw [List.nodup_append]
      refine ⟨h₁, List.nodup_singleton p, ?_⟩
      intro q hq hq'
      have hqp : q = p := by simpa using hq'
      exact h₄ p (List.mem_cons_self p ps) (hqp ▸ h₂ q hq)
    · intro q hq
      simp only [List.map_append, List.map_cons, List.map_nil,
        List.mem_append, List.mem_singleton] at hq
      rcases hq with hq | rfl
      · exact Finset.mem_insert_of_mem (h₂ q hq)
      · exact Finset.mem_insert_self q _
    · exact (List.nodup_cons.mp h₃).2
    · intro q hq
      rw [Finset.mem_insert]
      rintro (rfl | hmem)
      · exact (List.nodup_cons.mp h₃).1 hq
      · exact h₄ q (List.mem_cons_of_mem p hq) hmem

theorem extractLoop_nodup (pre : σ → σ) (scan : σ → List String)
    (extract : σ → String → Bool × σ)
    (hscan : ∀ s, (scan s).Nodup) :
    ∀ (fuel : Nat) (st : LoopState σ),
      (st.trace.map Prod.fst).Nodup →
      (∀ q ∈ st.trace.map Prod.fst, q ∈ st.processed) →
      ((extractLoop pre scan extract fuel st).1.trace.map Prod.fst).Nodup := by
  intro fuel
  induction fuel with
  | zero => intro st h₁ _; exact h₁
  | succ fuel ih =>
    intro st h₁ h₂
    rw [extractLoop]
    by_cases hp : ((scan (pre st.fs)).filter
        (fun p => !decide (p ∈ st.processed))).isEmpty
    · simp only [hp, if_pos]
      exact h₁
    · simp only [hp, if_neg, Bool.false_eq_true, not_false_iff]
      have hpend : ∀ p ∈ (scan (pre st.fs)).filter
          (fun p => !decide (p ∈ st.processed)), p ∉ st.processed := by
        intro p hmem
        have := (List.mem_filter.mp hmem).2
        simpa using this
      have hnd : ((scan (pre st.fs)).filter
          (fun p => !decide (p ∈ st.processed))).Nodup :=
        (hscan (pre st.fs)).filter _
      have h := runPending_inv extract
        ((scan (pre st.fs)).filter (fun p => !decide (p ∈ st.processed)))
        { st with fs := pre st.fs } h₁ h₂ hnd hpend
      exact ih _ h.1 h.2

theorem extractLoop_processed_mono (pre : σ → σ) (scan : σ → List String)
    (extract : σ → String → Bool × σ) :
    ∀ (fuel : Nat) (st : LoopState σ),
      st.processed ⊆ (extractLoop pre scan extract fuel st).1.processed := by
  intro fuel
  induction fuel with
  | zero => intro st; exact Finset.Subset.refl _
  | succ fuel ih =>
    intro st
    rw [extractLoop]
    by_cases hp : ((scan (pre st.fs)).filter
        (fun p => !decide (p ∈ st.processed))).isEmpty
    · simp only [hp, if_pos]
      exact Finset.Subset.refl _
    · simp only [hp, if_neg, Bool.false_eq_true, not_false_iff]
      refine Finset.Subset.trans ?_ (ih _)
      rw [runPending_processed]
      exact Finset.subset_union_left

theorem extractLoop_terminates (pre : σ → σ) (scan : σ → List String)
    (extract : σ → String → Bool × σ) (U : Finset String)
    (hU : ∀ s, ∀ p ∈ scan s, p ∈ U) :
    ∀ (fuel : Nat) (st : LoopState σ),
      (U \ st.processed).card < fuel →
      (extractLoop pre scan extract fuel st).2 = true := by
  intro fuel
  induction fuel with
  | zero => intro st h; exact absurd h (Nat.not_lt_zero _)
  | succ fuel ih =>
    intro st hcard
    rw [extractLoop]
    by_cases hp : ((scan (pre st.fs)).filter
        (fun p => !decide (p ∈ st.processed))).isEmpty
    · simp [hp]
    · simp only [hp, if_neg, Bool.false_eq_true, not_false_iff]
      apply ih
      obtain ⟨p, hpmem⟩ : ∃ p, p ∈ (scan (pre st.fs)).filter
          (fun p => !decide (p ∈ st.processed)) := by
        cases hl : (scan (pre st.fs)).filter
            (fun p => !decide (p ∈ st.processed)) with
        | nil => exact absurd (by simp [hl]) hp
        | cons q qs => exact ⟨q, by simp [hl]⟩
      have hpU : p ∈ U := hU _ _ (List.mem_filter.mp hpmem).1
      have hpnot : p ∉ st.processed := by
        have := (List.mem_filter.mp hpmem).2
        simpa using this
      have hss : (U \ (runPending extract
          ((scan (pre st.fs)).filter (fun p => !decide (p ∈ st.processed)))
          { st with fs := pre st.fs }).processed) ⊂
          (U \ st.processed) := by
        rw [runPending_processed]
        constructor
        · exact Finset.sdiff_subset_sdiff (Finset.Subset.refl U)
            Finset.subset_union_left
        · intro hsub
          have h1 : p ∈ U \ st.processed := Finset.mem_sdiff.mpr ⟨hpU, hpnot⟩
          have h2 := hsub h1
          rw [Finset.mem_sdiff] at h2
          exact h2.2 (Finset.mem_union_right _ (List.mem_toFinset.mpr hpmem))
      have := Finset.card_lt_card hss
      omega

/-! ## Small helper lemmas -/

/-- Every path accepted by `isRealZipPath` has (case-insensitive)
extension `.zip`. -/
theorem isRealZipPath_ext (f : String) (h : isRealZipPath f = true) :
    lowerStr (extname f) = ".zip" := by
  rw [isRealZipPath] at h
  by_cases hz : lowerStr (extname f) != ".zip"
  · rw [if_pos hz] at h
    exact absurd h (by simp)
  · simpa using hz

/-- The default head of a sorted non-empty list is one of its elements. -/
theorem mem_headD_sortDescBy (key : α → Nat) (z : α) (rest : List α) :
    (sortDescBy key (z :: rest)).headD z ∈ z :: rest := by
  have hperm := perm_sortDescBy key (z :: rest)
  cases hs : sortDescBy key (z :: rest) with
  | nil =>
    rw [hs] at hperm
    have := hperm.length_eq
    simp at this
  | cons a t =>
    rw [hs] at hperm
    exact hperm.mem_iff.mp (List.mem_cons_self a t)

/-- The default head of a sorted non-empty list has the maximal key. -/
theorem headD_sortDescBy_max (key : α → Nat) (z : α) (rest : List α) :
    ∀ g ∈ z :: rest, key g ≤ key ((sortDescBy key (z :: rest)).headD z) := by
  intro g hg
  have hperm := perm_sortDescBy key (z :: rest)
  have hdesc := descBy_sortDescBy key (z :: rest)
  cases hs : sortDescBy key (z :: rest) with
  | nil =>
    rw [hs] at hperm
    have := hperm.length_eq
    simp at this
  | cons a t =>
    rw [hs] at hperm hdesc
    exact descBy_head_max key a t hdesc g (hperm.mem_iff.mpr hg)

/-! ## Concrete worlds used by witnesses and counterexamples -/

/-- A run in which the root archive `/up/root.zip` extracts into
`/up/root_extracted` containing three nested zips: `a.zip` is corrupt (both
tools reject it) while `b.zip` and `c.zip` extract cleanly and contain no
further zips.  All other filesystem operations succeed. -/
def DemoWorld : World Unit :=
  { resolve := fun s => (Except.ok "/up/root.zip", s)
    rmRecForce := fun s _ => (none, s)
    rmForce := fun s _ => (none, s)
    mkdirRec := fun s _ => (none, s)
    chmod755 := fun s _ => (none, s)
    unzipTool := fun s zip _ =>
      (if zip == "/up/root_extracted/a.zip" then
        some "End-of-central-directory signature not found" else none, s)
    dittoTool := fun s zip _ =>
      (if zip == "/up/root_extracted/a.zip" then
        some "Couldn't read pkzip signature" else none, s)
    listFilesRec := fun _ _ =>
      ["/up/root_extracted/a.zip", "/up/root_extracted/b.zip",
       "/up/root_extracted/c.zip"]
    listDirsRec := fun _ _ => []
    now := 0 }

/-! ## Claim theorems -/

/-- **C1**: in every run of the nested-extraction loop each absolute zip path
is submitted to the extractor at most once — the path joins the processed set
at submission, so no later scan pass (and no later position of the same pass)
submits it again, however often it is rediscovered and whether or not its
extraction succeeded.  (`trace` records every submission in order; the
hypothesis states what the directory walker guarantees: one listing never
repeats a path.) -/
theorem nested_extraction_at_most_once (σ : Type) (w : World σ) (s : σ)
    (rootOutputDir : String) (fuel : Nat)
    (hls : ∀ s', (w.listFilesRec s' rootOutputDir).Nodup) :
    ((extractNestedZips w s rootOutputDir fuel).1.trace.map Prod.fst).Nodup := by
  rw [extractNestedZips]
  exact extractLoop_nodup _ _ _ (fun s' => (hls s').filter _) fuel
    (initState s) (by simp [initState]) (by simp [initState])

/-- Witness for C1 at the concrete `DemoWorld` run. -/
theorem nested_extraction_at_most_once_witness :
    (∀ s' : Unit, (DemoWorld.listFilesRec s' "/up/root_extracted").Nodup) ∧
    ((extractNestedZips DemoWorld () "/up/root_extracted" 3).1.trace.map
      Prod.fst).Nodup :=
  ⟨by intro s'; cases s'; decide,
    nested_extraction_at_most_once Unit DemoWorld () "/up/root_extracted" 3
      (by intro s'; cases s'; decide)⟩

/-- **C2**: the nested-extraction loop terminates on every finite tree — the
processed set only grows, and whenever the zip paths any scan can produce
are drawn from a finite universe `U`, fuel `U.card + 1` suffices for the
loop to exit through its fixpoint test. -/
theorem nested_extraction_terminates (σ : Type) (w : World σ) (s : σ)
    (rootOutputDir : String) (U : Finset String)
    (hU : ∀ s', ∀ p ∈ w.listFilesRec s' rootOutputDir, p ∈ U) :
    (∀ (fuel : Nat) (st : LoopState σ),
      st.processed ⊆ ((extractLoop (nestedPre w rootOutputDir)
        (nestedScan w rootOutputDir) (nestedExtract w) fuel st).1).processed) ∧
    (extractNestedZips w s rootOutputDir (U.card + 1)).2 = true := by
  constructor
  · exact fun fuel st => extractLoop_processed_mono _ _ _ fuel st
  · rw [extractNestedZips]
    apply extractLoop_terminates _ _ _ U
    · intro s' p hp
      exact hU s' p (List.mem_filter.mp hp).1
    · have h : (U \ (initState s).processed).card = U.card := by
        simp [initState]
      rw [h]
      exact Nat.lt_succ_self U.card

/-- The finite universe of zip paths arising in the `DemoWorld` run. -/
def DemoU : Finset String :=
  {"/up/root_extracted/a.zip", "/up/root_extracted/b.zip",
   "/up/root_extracted/c.zip"}

/-- Witness for C2 at the concrete `DemoWorld` run. -/
theorem nested_extraction_terminates_witness :
    (∀ s' : Unit, ∀ p ∈ DemoWorld.listFilesRec s' "/up/root_extracted",
      p ∈ DemoU) ∧
    (extractNestedZips DemoWorld () "/up/root_extracted" (DemoU.card + 1)).2 =
      true :=
  ⟨by intro s'; cases s'; decide,
    (nested_extraction_terminates Unit DemoWorld () "/up/root_extracted" DemoU
      (by intro s'; cases s'; decide)).2⟩

/-- **C7**: every submitted nested extraction bumps exactly one of the two
counters — in any run from the initial loop state, the success counter equals
the number of successful submissions in the trace and the failure counter the
number of failed ones, so the loop continues past failures; and in the
concrete `DemoWorld` run (one corrupt plus two valid nested zips) the whole
pipeline reports `nestedExtractedCount = 2`, `nestedFailedCount = 1` and
exits with code 0. -/
theorem nested_failure_counters_and_exit_zero :
    (∀ (σ : Type) (pre : σ → σ) (scan : σ → List String)
        (extract : σ → String → Bool × σ) (fuel : Nat) (fs₀ : σ),
      (extractLoop pre scan extract fuel (initState fs₀)).1.count =
          ((extractLoop pre scan extract fuel (initState fs₀)).1.trace.filter
            (fun e => e.2)).length ∧
        (extractLoop pre scan extract fuel (initState fs₀)).1.failures =
          ((extractLoop pre scan extract fuel (initState fs₀)).1.trace.filter
            (fun e => !e.2)).length) ∧
    mainModel DemoWorld () none 3 =
      { exitCode := 0, usageError := false,
        summary := some
          { nestedZipCount := 2, nestedZipFailures := 1, removedFiles := 0,
            removedDirs := 0, totalDirs := 0, totalFiles := 3,
            nonZipFiles := 0, zipFilesStill := 3 }
        finalS := () } :=
  ⟨fun _σ pre scan extract fuel fs₀ =>
    extractLoop_counts pre scan extract fuel (initState fs₀) rfl rfl, rfl⟩

/-- **C8**: when resolution returns an existing file whose extension is not
`.zip`, `main` exits with code 1 through the usage-error branch, and the
filesystem state is exactly the post-resolution state — no directory is
prepared, no extraction is attempted, whatever the output argument and the
rest of the world. -/
theorem non_zip_argument_usage_error (σ : Type) (w : World σ) (s₀ : σ)
    (outputArg : Option String) (fuel : Nat) (p : String) (s₁ : σ)
    (hres : w.resolve s₀ = (Except.ok p, s₁))
    (hext : lowerStr (extname p) ≠ ".zip") :
    mainModel w s₀ outputArg fuel =
      { exitCode := 1, usageError := true, summary := none, finalS := s₁ } := by
  have hb : (lowerStr (extname p) != ".zip") = true := by
    simpa using hext
  rw [mainModel, hres]
  simp [hb]

/-- A world whose resolver hands back an existing non-zip file. -/
def NonZipWorld : World Unit :=
  { resolve := fun s => (Except.ok "/up/readme.txt", s)
    rmRecForce := fun s _ => (none, s)
    rmForce := fun s _ => (none, s)
    mkdirRec := fun s _ => (none, s)
    chmod755 := fun s _ => (none, s)
    unzipTool := fun s _ _ => (none, s)
    dittoTool := fun s _ _ => (none, s)
    listFilesRec := fun _ _ => []
    listDirsRec := fun _ _ => []
    now := 0 }

/-- Witness for C8: resolving `/up/readme.txt` exits 1 before any effect. -/
theorem non_zip_argument_usage_error_witness :
    NonZipWorld.resolve () = (Except.ok "/up/readme.txt", ()) ∧
    lowerStr (extname "/up/readme.txt") ≠ ".zip" ∧
    mainModel NonZipWorld () none 1 =
      { exitCode := 1, usageError := true, summary := none, finalS := () } :=
  ⟨rfl, by decide,
    non_zip_argument_usage_error Unit NonZipWorld () none 1 "/up/readme.txt" ()
      rfl (by decide)⟩

/-- **C9**: a zip argument that trims to the empty string is treated exactly
like an absent argument — `zipArg?.trim()` is falsy either way, so resolution
skips the explicit-path and basename-match branches and runs the no-argument
auto-selection. -/
theorem whitespace_argument_like_absent (w : ResolveWorld) (arg : String)
    (h : trimStr arg = "") :
    resolveZipFromArgs w (some arg) = resolveZipFromArgs w none := by
  have h0 : trimStr "" = "" := rfl
  rw [resolveZipFromArgs, resolveZipFromArgs]
  simp only [Option.getD_some, Option.getD_none, h, h0]

/-- A concrete upload directory for the resolver witnesses: `a.zip` and
`A.ZIP` both qualify, `A.ZIP` is newer, and `n.txt` does not qualify. -/
def DemoResolveWorld : ResolveWorld :=
  { cwd := "/work", uploadDir := "/work/upload",
    statIsFile := fun _ => false, uploadDirIsDir := true,
    uploadFiles :=
      [⟨"/work/upload/a.zip", 5⟩, ⟨"/work/upload/A.ZIP", 9⟩,
       ⟨"/work/upload/n.txt", 3⟩],
    uploadListFails := false }

/-- Witness for C9: the all-blank argument resolves like no argument. -/
theorem whitespace_argument_like_absent_witness :
    trimStr "   " = "" ∧
    resolveZipFromArgs DemoResolveWorld (some "   ") =
      resolveZipFromArgs DemoResolveWorld none :=
  ⟨rfl, whitespace_argument_like_absent DemoResolveWorld "   " rfl⟩

/-- Every path the no-argument branch can return passes `isRealZipPath`, so
in particular its lowercased extension is `.zip`. -/
theorem noArgResolve_is_zip (w : ResolveWorld) (p : String)
    (h : noArgResolve w = Except.ok p) : lowerStr (extname p) = ".zip" := by
  rw [noArgResolve] at h
  by_cases hdir : w.uploadDirIsDir
  · rw [if_neg (by simp [hdir])] at h
    cases hz : w.uploadFiles.filter (fun f => isRealZipPath f.path) with
    | nil => rw [hz] at h; exact absurd h (by simp)
    | cons z rest =>
      rw [hz] at h
      have hp : ((sortDescBy (fun f => f.mtimeMs) (z :: rest)).headD z).path
          = p := by
        simpa using h
      have hmem := mem_headD_sortDescBy (fun f => f.mtimeMs) z rest
      have hmem' : (sortDescBy (fun f => f.mtimeMs) (z :: rest)).headD z ∈
          w.uploadFiles.filter (fun f => isRealZipPath f.path) := by
        rw [hz]; exact hmem
      have hzip : isRealZipPath
          ((sortDescBy (fun f => f.mtimeMs) (z :: rest)).headD z).path = true :=
        (List.mem_filter.mp hmem').2
      rw [hp] at hzip
      exact isRealZipPath_ext p hzip
  · rw [if_pos (by simp [hdir])] at h
    exact absurd h (by simp)

/-- **C10**: with no zip argument, resolution only ever returns paths whose
case-insensitive extension is `.zip` (the no-argument branch filters through
`isRealZipPath`), and consequently an orchestrator whose resolver runs the
no-argument branch can never take the non-zip usage-error exit. -/
theorem no_argument_resolution_always_zip :
    (∀ (w : ResolveWorld) (p : String),
      resolveZipFromArgs w none = Except.ok p →
        lowerStr (extname p) = ".zip") ∧
    (∀ (σ : Type) (w : World σ) (rw : ResolveWorld) (s₀ : σ)
        (outputArg : Option String) (fuel : Nat),
      (∀ s, w.resolve s = (resolveZipFromArgs rw none, s)) →
        (mainModel w s₀ outputArg fuel).usageError = false) := by
  have hcore : ∀ (w : ResolveWorld) (p : String),
      resolveZipFromArgs w none = Except.ok p →
        lowerStr (extname p) = ".zip" := by
    intro w p h
    rw [resolveZipFromArgs] at h
    simp only [Option.getD_none] at h
    rw [if_neg (by decide)] at h
    exact noArgResolve_is_zip w p h
  refine ⟨hcore, ?_⟩
  intro σ w rw s₀ outputArg fuel hw
  rw [mainModel, hw s₀]
  cases hres : resolveZipFromArgs rw none with
  | error e => rfl
  | ok p =>
    have hz : lowerStr (extname p) = ".zip" := hcore rw p hres
    have hb : (lowerStr (extname p) != ".zip") = false := by simp [hz]
    simp only [hb, Bool.false_eq_true, if_false]
    rcases hu : unzipToDir w s₀ p
        (outputArg.getD (pathJoin (dirname p)
          (basenameDropSuffix p ".zip" ++ "_extracted"))) with ⟨r, s₂⟩
    cases r with
    | error e => simp [hu]
    | ok actualOut =>
      simp only [hu]
      rcases hc : cleanupMacArtifacts w
          (extractNestedZips w (makeDirectoriesWritable w s₂ actualOut).2
            actualOut fuel).1.fs actualOut with ⟨rc, s₅⟩
      cases rc with
      | error e => simp [hc]
      | ok counts =>
        rcases counts with ⟨rf, rd⟩
        simp [hc]

/-- A world whose resolver runs the no-argument branch over
`DemoResolveWorld`'s upload directory. -/
def NoArgWorld : World Unit :=
  { resolve := fun s => (resolveZipFromArgs DemoResolveWorld none, s)
    rmRecForce := fun s _ => (none, s)
    rmForce := fun s _ => (none, s)
    mkdirRec := fun s _ => (none, s)
    chmod755 := fun s _ => (none, s)
    unzipTool := fun s _ _ => (none, s)
    dittoTool := fun s _ _ => (none, s)
    listFilesRec := fun _ _ => []
    listDirsRec := fun _ _ => []
    now := 0 }

/-- Witness for C10: the auto-selected zip of `DemoResolveWorld` has
extension `.zip` and the orchestrator never takes the usage-error exit. -/
theorem no_argument_resolution_always_zip_witness :
    resolveZipFromArgs DemoResolveWorld none =
      Except.ok "/work/upload/A.ZIP" ∧
    lowerStr (extname "/work/upload/A.ZIP") = ".zip" ∧
    (mainModel NoArgWorld () none 1).usageError = false :=
  ⟨rfl,
    no_argument_resolution_always_zip.1 DemoResolveWorld
      "/work/upload/A.ZIP" rfl,
    no_argument_resolution_always_zip.2 Unit NoArgWorld DemoResolveWorld ()
      none 1 (fun _ => rfl)⟩

/-- A world in which the preferred output directory cannot be cleared and
the fallback directory cannot be created either, while both extraction tools
would succeed if ever invoked. -/
def FailPrepWorld : World Unit :=
  { resolve := fun s => (Except.error (ResErr.uploadMissing "/work/upload"), s)
    rmRecForce := fun s _ => (some "EACCES", s)
    rmForce := fun s _ => (some "EACCES", s)
    mkdirRec := fun s _ => (some "EACCES", s)
    chmod755 := fun s _ => (none, s)
    unzipTool := fun s _ _ => (none, s)
    dittoTool := fun s _ _ => (none, s)
    listFilesRec := fun _ _ => []
    listDirsRec := fun _ _ => []
    now := 0 }

/-- Counterexample to **C3** as stated: in `FailPrepWorld` both extraction
tools always succeed, yet `unzipToDir` fails — with the directory-preparation
error itself — because creating the fallback directory also fails.  So a
directory-preparation failure *can* cause the extraction call to fail and be
surfaced as an error. -/
theorem prep_failure_can_fail_extraction :
    FailPrepWorld.unzipTool () "/up/a.zip" "/data/out" = (none, ()) ∧
    unzipToDir FailPrepWorld () "/up/a.zip" "/data/out" =
      (Except.error "EACCES", ()) :=
  ⟨rfl, rfl⟩

/-- **C3** (amended): if clearing-and-recreating the preferred output
directory fails *and creating the timestamp-suffixed fallback directory
succeeds*, then `prepareEmptyDir` returns the sibling
`<preferredBase>_<Date.now()>` directory, logs the original failure and the
fallback path, and the extraction call proceeds into the fallback directory
exactly as the tool phase dictates — the preparation failure is not surfaced
as an error. -/
theorem prep_failure_falls_back (σ : Type) (w : World σ) (s : σ)
    (zipPath preferredDir err : String) (s₁ s₂ : σ)
    (hfail : tryPreparePreferred w s preferredDir = Except.error (err, s₁))
    (hmk : w.mkdirRec s₁ (buildFallbackDirPath preferredDir w.now) =
      (none, s₂)) :
    prepareEmptyDir w s preferredDir =
      (Except.ok (buildFallbackDirPath preferredDir w.now), s₂,
        ["[zip:extract] cannot reuse output dir (" ++ preferredDir ++
          "); using fallback: " ++ buildFallbackDirPath preferredDir w.now,
         "[zip:extract] reason: " ++ err]) ∧
    unzipToDir w s zipPath preferredDir =
      runTools w s₂ zipPath (buildFallbackDirPath preferredDir w.now) := by
  have hprep : prepareEmptyDir w s preferredDir =
      (Except.ok (buildFallbackDirPath preferredDir w.now), s₂,
        ["[zip:extract] cannot reuse output dir (" ++ preferredDir ++
          "); using fallback: " ++ buildFallbackDirPath preferredDir w.now,
         "[zip:extract] reason: " ++ err]) := by
    rw [prepareEmptyDir, hfail]
    simp only [hmk]
  exact ⟨hprep, by rw [unzipToDir, hprep]⟩

/-- A world in which clearing the preferred directory fails but directory
creation succeeds, so preparation recovers through the fallback. -/
def FallbackWorld : World Unit :=
  { resolve := fun s => (Except.error (ResErr.uploadMissing "/work/upload"), s)
    rmRecForce := fun s _ => (some "EBUSY", s)
    rmForce := fun s _ => (none, s)
    mkdirRec := fun s _ => (none, s)
    chmod755 := fun s _ => (none, s)
    unzipTool := fun s _ _ => (none, s)
    dittoTool := fun s _ _ => (none, s)
    listFilesRec := fun _ _ => []
    listDirsRec := fun _ _ => []
    now := 1712345678901 }

/-- Witness for the amended C3 in `FallbackWorld`. -/
theorem prep_failure_falls_back_witness :
    tryPreparePreferred FallbackWorld () "/data/out" =
      Except.error ("EBUSY", ()) ∧
    prepareEmptyDir FallbackWorld () "/data/out" =
      (Except.ok (buildFallbackDirPath "/data/out" FallbackWorld.now), (),
        ["[zip:extract] cannot reuse output dir (/data/out); using fallback: "
          ++ buildFallbackDirPath "/data/out" FallbackWorld.now,
         "[zip:extract] reason: EBUSY"]) :=
  ⟨rfl,
    (prep_failure_falls_back Unit FallbackWorld () "/up/a.zip" "/data/out"
      "EBUSY" () () rfl rfl).1⟩

/-- A world whose root extraction succeeds but where removing the metadata
file `/out/.DS_Store` is rejected with `EACCES` (for instance because its
parent directory is read-only). -/
def BrokenRmWorld : World Unit :=
  { resolve := fun s => (Except.ok "/up/root.zip", s)
    rmRecForce := fun s _ => (none, s)
    rmForce := fun s p =>
      (if p == "/out/.DS_Store" then some "EACCES" else none, s)
    mkdirRec := fun s _ => (none, s)
    chmod755 := fun s _ => (none, s)
    unzipTool := fun s _ _ => (none, s)
    dittoTool := fun s _ _ => (none, s)
    listFilesRec := fun _ _ => ["/out/.DS_Store", "/out/keep.txt"]
    listDirsRec := fun _ _ => []
    now := 0 }

/-- **C4** (code bug): `cleanupMacArtifacts` has no `try`/`catch`, and
`rm(..., { force: true })` only suppresses missing-path errors, so a single
rejected removal aborts the whole cleanup with an error instead of
continuing; the rejection propagates out of `main`, which exits 1 without
printing the summary even though root extraction succeeded — contrary to the
claim's best-effort / always-summarize behavior. -/
theorem cleanup_rm_failure_aborts_pipeline :
    cleanupMacArtifacts BrokenRmWorld () "/out" = (Except.error "EACCES", ()) ∧
    mainModel BrokenRmWorld () (some "/out") 2 =
      { exitCode := 1, usageError := false, summary := none, finalS := () } :=
  ⟨rfl, rfl⟩

/-- Counterexample to **C5** as stated: the sort key is the path length
alone and the sort is stable, so two discovery orders of the *same set* of
equal-length `__MACOSX` directories produce two *different* deletion
orders — deletion order is not determined by the set alone. -/
theorem macosx_deletion_order_depends_on_discovery :
    List.Perm ["/a/__MACOSX", "/b/__MACOSX"] ["/b/__MACOSX", "/a/__MACOSX"] ∧
    deletionOrder ["/a/__MACOSX", "/b/__MACOSX"] ≠
      deletionOrder ["/b/__MACOSX", "/a/__MACOSX"] := by
  constructor
  · exact List.Perm.swap "/b/__MACOSX" "/a/__MACOSX" []
  · decide

/-- **C5** (amended): `cleanupMacArtifacts` deletes the `__MACOSX`
directories in descending order of path length, so a metadata directory
nested inside another is always deleted strictly before it; and the deletion
order is independent of the discovery order *provided the directories have
pairwise distinct path lengths* (with equal lengths the stable sort keeps
the discovery order, see the counterexample). -/
theorem macosx_deleted_deepest_first :
    (∀ (dirs : List String) (d₁ d₂ : String),
      (∃ rest, d₂ = d₁ ++ "/" ++ rest) →
      d₁ ∈ deletionOrder dirs → d₂ ∈ deletionOrder dirs →
      (deletionOrder dirs).indexOf d₂ < (deletionOrder dirs).indexOf d₁) ∧
    (∀ (dirs₁ dirs₂ : List String),
      List.Perm dirs₁ dirs₂ →
      (∀ a ∈ dirs₁, ∀ b ∈ dirs₁, a.data.length = b.data.length → a = b) →
      deletionOrder dirs₁ = deletionOrder dirs₂) := by
  constructor
  · intro dirs d₁ d₂ hnest h₁ h₂
    have hdesc : DescBy (fun d : String => d.data.length)
        (deletionOrder dirs) := by
      rw [deletionOrder]
      exact (descBy_sortDescBy (fun d : String => d.data.length) dirs).filter _
    have hlen : d₁.data.length < d₂.data.length := by
      obtain ⟨rest, hrest⟩ := hnest
      rw [hrest, String.data_append, String.data_append]
      simp [String.length_append]
    exact idxOf_lt_of_key_gt (fun d : String => d.data.length)
      (deletionOrder dirs) hdesc d₂ h₂ d₁ h₁ hlen
  · intro dirs₁ dirs₂ hperm hinj
    have hsorted : sortDescBy (fun d : String => d.data.length) dirs₁ =
        sortDescBy (fun d : String => d.data.length) dirs₂ := by
      apply descBy_perm_eq (fun d : String => d.data.length)
      · exact ((perm_sortDescBy _ dirs₁).trans hperm).trans
          (perm_sortDescBy _ dirs₂).symm
      · exact descBy_sortDescBy _ dirs₁
      · exact descBy_sortDescBy _ dirs₂
      · intro a ha b hb
        exact hinj a ((perm_sortDescBy _ dirs₁).mem_iff.mp ha)
          b ((perm_sortDescBy _ dirs₁).mem_iff.mp hb)
    rw [deletionOrder, deletionOrder, hsorted]

/-- Witness for the amended C5: a nested pair of `__MACOSX` directories is
deleted child-first, and two discovery orders of distinct-length directories
yield the same deletion order. -/
theorem macosx_deleted_deepest_first_witness :
    ((∃ rest, "/x/__MACOSX/__MACOSX" = "/x/__MACOSX" ++ "/" ++ rest) ∧
      (deletionOrder
        ["/x/__MACOSX", "/x/__MACOSX/__MACOSX"]).indexOf
          "/x/__MACOSX/__MACOSX" <
        (deletionOrder
          ["/x/__MACOSX", "/x/__MACOSX/__MACOSX"]).indexOf "/x/__MACOSX") ∧
    (List.Perm ["/aa/__MACOSX", "/b/__MACOSX"]
        ["/b/__MACOSX", "/aa/__MACOSX"] ∧
      deletionOrder ["/aa/__MACOSX", "/b/__MACOSX"] =
        deletionOrder ["/b/__MACOSX", "/aa/__MACOSX"]) :=
  ⟨⟨⟨"__MACOSX", by decide⟩,
    macosx_deleted_deepest_first.1 ["/x/__MACOSX", "/x/__MACOSX/__MACOSX"]
      "/x/__MACOSX" "/x/__MACOSX/__MACOSX" ⟨"__MACOSX", by decide⟩
      (by decide) (by decide)⟩,
   ⟨List.Perm.swap "/b/__MACOSX" "/aa/__MACOSX" [],
    macosx_deleted_deepest_first.2 ["/aa/__MACOSX", "/b/__MACOSX"]
      ["/b/__MACOSX", "/aa/__MACOSX"]
      (List.Perm.swap "/b/__MACOSX" "/aa/__MACOSX" []) (by decide)⟩⟩

/-- **C6**: when the arguments do not name an existing path, resolution runs
the case-insensitive basename match of the qualifying upload zips against
the literal argument and the argument with `.zip` appended (last conjunct);
exactly one match resolves to that match; more than one match resolves to a
match of maximal modification time with the tie-break logged; zero matches
fail with the not-found error listing at most 12 available zip basenames. -/
theorem basename_match_resolution (cleanArg : String)
    (listing : List FileEntry) :
    (∀ m, basenameMatches cleanArg listing = [m] →
      resolveByBasenameMatch cleanArg listing = (Except.ok m.path, false)) ∧
    ((basenameMatches cleanArg listing).length > 1 →
      ∃ m ∈ basenameMatches cleanArg listing,
        resolveByBasenameMatch cleanArg listing = (Except.ok m.path, true) ∧
        ∀ g ∈ basenameMatches cleanArg listing, g.mtimeMs ≤ m.mtimeMs) ∧
    (basenameMatches cleanArg listing = [] →
      ∃ avail, resolveByBasenameMatch cleanArg listing =
          (Except.error (ResErr.notFound cleanArg avail), false) ∧
        avail.length ≤ 12) ∧
    (∀ (w : ResolveWorld) (arg : String),
      trimStr arg ≠ "" →
      w.statIsFile (resolvePath w.cwd (trimStr arg)) = false →
      w.statIsFile (resolvePath w.uploadDir (trimStr arg)) = false →
      w.uploadListFails = false →
      resolveZipFromArgs w (some arg) =
        (resolveByBasenameMatch (trimStr arg) w.uploadFiles).1) := by
  refine ⟨?_, ?_, ?_, ?_⟩
  · intro m hm
    rw [resolveByBasenameMatch, hm]
  · intro hlen
    cases hm : basenameMatches cleanArg listing with
    | nil => rw [hm] at hlen; simp at hlen
    | cons m rest =>
      cases rest with
      | nil => rw [hm] at hlen; simp at hlen
      | cons r rs =>
        refine ⟨(sortDescBy (fun f => f.mtimeMs) (m :: r :: rs)).headD m,
          ?_, ?_, ?_⟩
        · exact mem_headD_sortDescBy (fun f => f.mtimeMs) m (r :: rs)
        · rw [resolveByBasenameMatch, hm]
        · intro g hg
          exact headD_sortDescBy_max (fun f => f.mtimeMs) m (r :: rs) g hg
  · intro hm
    refine ⟨(dedupKeepFirst
      ((uploadZipsOf listing).map (fun f => basename f.path))).take 12,
      ?_, ?_⟩
    · rw [resolveByBasenameMatch, hm]
    · rw [List.length_take]
      exact Nat.min_le_left _ _
  · intro w arg h1 h2 h3 h4
    have hb : (trimStr ((some arg).getD "") != "") = true := by simpa using h1
    rw [resolveZipFromArgs, if_pos hb]
    simp only [Option.getD_some, h2, h3, h4]
    simp

/-- Witness for C6 in the two-match situation of `DemoResolveWorld`
(`a.zip` and `A.ZIP` both match the request `a`). -/
theorem basename_match_resolution_witness :
    (basenameMatches "a" DemoResolveWorld.uploadFiles).length > 1 ∧
    ∃ m ∈ basenameMatches "a" DemoResolveWorld.uploadFiles,
      resolveByBasenameMatch "a" DemoResolveWorld.uploadFiles =
        (Except.ok m.path, true) ∧
      ∀ g ∈ basenameMatches "a" DemoResolveWorld.uploadFiles,
        g.mtimeMs ≤ m.mtimeMs :=
  ⟨by decide,
    (basename_match_resolution "a" DemoResolveWorld.uploadFiles).2.1
      (by decide)⟩

end ZipExtract
